import Mathlib

/-!
Verification of the camera-inspection handshake loop and level detector.

The model is a shallow embedding of `src/Test/betterImgPatched.py` (the
variant the specification follows: all detection deferred to the final
commit).  Two independent parts are modelled:

* the handshake tick loop `inspection_loop` together with the result
  assembly functions `process_containers_automated` / `process_two_views`,
  as a deterministic step function over an explicit loop state, an
  explicit register bank, and per-tick oracle inputs (register reads and
  the asynchronous capture tasks' observed completion state);

* the geometric classifier `detect_canister_level`, from the point where
  the line extractor (`cv2.HoughLinesP`) has produced its list of
  segments.  The extractor itself and the raster pipeline in front of it
  are opaque parameters; the position/orientation filter, the
  longest-segment selection, the tolerance test and the curvature
  override are translated faithfully.  Floating-point arithmetic is
  modelled by exact real arithmetic (decimal literals are read exactly),
  `np.arctan2`/`np.degrees`/`np.std` by their real counterparts.

File paths and decoded images carry no structure that the loop logic
inspects, so they are represented by natural-number tokens.
-/

namespace CameraInspection

/-! ### Register bank (the IR block published by the loop) -/

/-- Status (input-register) addresses written by the loop:
IR128 inspection id, IR129 photo step done, IR130 results version,
IR131..IR134 the per-container recorrection flags. -/
inductive IReg where
  | inspectionId
  | photoStepDone
  | resultsVersion
  | c1
  | c2
  | c3
  | c4
deriving DecidableEq, Repr

/-- Values of the seven status registers the loop writes. -/
structure Regs where
  inspectionId : ℕ
  photoStepDone : ℕ
  resultsVersion : ℕ
  c1 : ℕ
  c2 : ℕ
  c3 : ℕ
  c4 : ℕ
deriving DecidableEq, Repr

/-- One word-granular register write (`_ir_set`). -/
def Regs.write (r : Regs) (w : IReg × ℕ) : Regs :=
  match w.1 with
  | .inspectionId => { r with inspectionId := w.2 }
  | .photoStepDone => { r with photoStepDone := w.2 }
  | .resultsVersion => { r with resultsVersion := w.2 }
  | .c1 => { r with c1 := w.2 }
  | .c2 => { r with c2 := w.2 }
  | .c3 => { r with c3 := w.2 }
  | .c4 => { r with c4 := w.2 }

/-- Apply a sequence of register writes in order. -/
def Regs.writeAll (r : Regs) (ws : List (IReg × ℕ)) : Regs :=
  ws.foldl Regs.write r

/-! ### Detection oracles and result assembly -/

/-- File paths are opaque tokens. -/
abbrev FPath := ℕ

/-- Decoded images are opaque tokens. -/
abbrev Image := ℕ

/-- Environment of the loop: `disk` models `cv2.imread` on a path that was
actually produced (it may still fail to decode), `isLevel` models the
`is_level` verdict of `detect_canister_level` on the crop of the given
container id inside the given image. -/
structure Env where
  disk : FPath → Option Image
  isLevel : Image → ℕ → Bool

/-- Camera side selecting the default crop-region table. -/
inductive Side where
  | front
  | back
deriving DecidableEq, Repr

/-- Whether the default crop-region table of a side has a region for the
given container id (front exposes 3 and 4, back exposes 1 and 2). -/
def hasCrop : Side → ℕ → Bool
  | .front, 3 => true
  | .front, 4 => true
  | .back, 1 => true
  | .back, 2 => true
  | _, _ => false

/-- The result dict of `process_containers_automated`: per container,
`none` means "not processed", `some b` means "recorrection needed = b". -/
structure RecFlags where
  c1 : Option Bool
  c2 : Option Bool
  c3 : Option Bool
  c4 : Option Bool
deriving DecidableEq, Repr

/-- Loading an image from an optional path: a capture fault (`path=None`)
yields no image, otherwise `cv2.imread` may fail on disk. -/
def imread (E : Env) : Option FPath → Option Image
  | none => none
  | some p => E.disk p

/-- Flag produced for one container id by `process_pallet`: set only when
the id is in the active list and has a crop region; `True` iff the
container is not level. -/
def viewFlag (E : Env) (img : Image) (active : List ℕ) (side : Side) (cid : ℕ) :
    Option Bool :=
  if cid ∈ active ∧ hasCrop side cid then some (! E.isLevel img cid) else none

/-- Model of `process_containers_automated`: if the image cannot be
loaded, every flag stays `None` ("Defaulting all to OK"); otherwise the
flags of the processed containers are filled in. -/
def process_containers_automated (E : Env) (imagePath : Option FPath)
    (active : List ℕ) (side : Side) : RecFlags :=
  match imread E imagePath with
  | none => ⟨none, none, none, none⟩
  | some img =>
      ⟨viewFlag E img active side 1, viewFlag E img active side 2,
       viewFlag E img active side 3, viewFlag E img active side 4⟩

/-- Python truthiness used in `1 if flags.get(key) else 0`:
`None` and `False` give 0, `True` gives 1. -/
def pyFlag : Option Bool → ℕ
  | some true => 1
  | _ => 0

/-- Combined integer results of `process_two_views`. -/
structure Results where
  c1 : ℕ
  c2 : ℕ
  c3 : ℕ
  c4 : ℕ
deriving DecidableEq, Repr

/-- Model of `process_two_views`: its first statement is
`os.path.dirname(front_path)`, which raises TypeError when the front path
is `None` — modelled as `none`, no results.  Otherwise the front view
handles containers 3 and 4, the back view 1 and 2, and missing flags map
to 0 (`1 if ... else 0`). -/
def process_two_views (E : Env) (frontPath backPath : Option FPath) :
    Option Results :=
  match frontPath with
  | none => none
  | some _ =>
      let flagsFront := process_containers_automated E frontPath [3, 4] .front
      let flagsBack := process_containers_automated E backPath [1, 2] .back
      some ⟨pyFlag flagsBack.c1, pyFlag flagsBack.c2,
            pyFlag flagsFront.c3, pyFlag flagsFront.c4⟩

/-! ### The tick loop -/

/-- Observed state of an asynchronous capture task's result dict when the
loop polls it on a tick. -/
structure CapObs where
  done : Bool
  path : Option FPath
deriving DecidableEq, Repr

/-- Per-tick oracle input: the two control registers read at the top of
the tick and the observed capture-task dicts. -/
structure TickInput where
  mm : ℕ
  step : ℕ
  frontObs : CapObs
  backObs : CapObs
deriving DecidableEq, Repr

/-- The loop's local variables plus the published register bank. -/
structure LoopState where
  inspectionId : ℕ
  photoStepDone : ℕ
  resultsVersion : ℕ
  prevMm : ℕ
  frontCap : Bool
  backCap : Bool
  frontPath : Option FPath
  backPath : Option FPath
  regs : Regs
deriving DecidableEq, Repr

/-- State after the initial publish preceding the loop: everything 0. -/
def initState : LoopState :=
  { inspectionId := 0, photoStepDone := 0, resultsVersion := 0, prevMm := 0,
    frontCap := false, backCap := false, frontPath := none, backPath := none,
    regs := ⟨0, 0, 0, 0, 0, 0, 0⟩ }

/-- Rising-edge block: on `mm == 1 and prev_mm == 0` a new inspection is
allocated, in-flight capture state is discarded, and the id and phase
registers are rewritten.  Returns the new state and its register writes. -/
def afterEdge (s : LoopState) (i : TickInput) : LoopState × List (IReg × ℕ) :=
  if i.mm = 1 ∧ s.prevMm = 0 then
    ({ s with inspectionId := s.inspectionId + 1, photoStepDone := 0,
              frontCap := false, backCap := false,
              frontPath := none, backPath := none,
              regs := (s.regs.write (.inspectionId, s.inspectionId + 1)).write
                        (.photoStepDone, 0) },
     [(IReg.inspectionId, s.inspectionId + 1), (IReg.photoStepDone, 0)])
  else (s, [])

/-- After the edge block the previous trigger value is recorded. -/
def afterPrev (s : LoopState) (i : TickInput) : LoopState :=
  { (afterEdge s i).1 with prevMm := i.mm }

/-- First-view request: `step == 1 and photo_step_done == 0 and
front_cap is None` starts the front capture. -/
def afterFirstReq (s : LoopState) (i : TickInput) : LoopState :=
  if i.step = 1 ∧ (afterPrev s i).photoStepDone = 0 ∧ (afterPrev s i).frontCap = false then
    { (afterPrev s i) with frontCap := true }
  else afterPrev s i

/-- First-view completion: records the path, sets phase 1 and writes the
phase register. -/
def afterFirstDone (s : LoopState) (i : TickInput) : LoopState × List (IReg × ℕ) :=
  if (afterFirstReq s i).frontCap = true ∧ i.frontObs.done = true ∧
      (afterFirstReq s i).frontPath = none then
    ({ (afterFirstReq s i) with
        frontPath := i.frontObs.path, photoStepDone := 1,
        regs := (afterFirstReq s i).regs.write (.photoStepDone, 1) },
     [(IReg.photoStepDone, 1)])
  else (afterFirstReq s i, [])

/-- State after the second-view request block (`step == 2 and
photo_step_done == 1 and back_cap is None` starts the back capture),
i.e. just before the commit test. -/
def midState (s : LoopState) (i : TickInput) : LoopState :=
  if i.step = 2 ∧ (afterFirstDone s i).1.photoStepDone = 1 ∧
      (afterFirstDone s i).1.backCap = false then
    { (afterFirstDone s i).1 with backCap := true }
  else (afterFirstDone s i).1

/-- The commit guard of the tick, exactly as in the source:
`back_cap is not None and back_cap.get('done') and back_path is None and
photo_step_done == 1`.  The step register is not consulted here. -/
def commitFires (s : LoopState) (i : TickInput) : Prop :=
  (midState s i).backCap = true ∧ i.backObs.done = true ∧
    (midState s i).backPath = none ∧ (midState s i).photoStepDone = 1

instance (s : LoopState) (i : TickInput) : Decidable (commitFires s i) := by
  unfold commitFires
  infer_instance

/-- The register writes of a completed commit with results `r`, in
program order: the four flags first, then the phase register, then the
incremented version register. -/
def commitWrites (s : LoopState) (i : TickInput) (r : Results) :
    List (IReg × ℕ) :=
  [(IReg.c1, r.c1), (IReg.c2, r.c2), (IReg.c3, r.c3), (IReg.c4, r.c4),
   (IReg.photoStepDone, 2),
   (IReg.resultsVersion, (midState s i).resultsVersion + 1)]

/-- One iteration of `inspection_loop`, returning the new state and the
ordered trace of register writes performed during the tick.  When the
commit guard fires, `back_path` is recorded first; if `process_two_views`
then raises (missing front path), the loop's per-tick `except` swallows
the exception: nothing else changes and no commit register is written.
Otherwise the commit completes. -/
def tick (E : Env) (s : LoopState) (i : TickInput) : LoopState × List (IReg × ℕ) :=
  if commitFires s i then
    match process_two_views E (midState s i).frontPath i.backObs.path with
    | none =>
        ({ (midState s i) with backPath := i.backObs.path },
         (afterEdge s i).2 ++ (afterFirstDone s i).2)
    | some r =>
        ({ (midState s i) with
            backPath := i.backObs.path, photoStepDone := 2,
            resultsVersion := (midState s i).resultsVersion + 1,
            regs := (midState s i).regs.writeAll (commitWrites s i r) },
         ((afterEdge s i).2 ++ (afterFirstDone s i).2) ++ commitWrites s i r)
  else (midState s i, (afterEdge s i).2 ++ (afterFirstDone s i).2)

/-- A commit both fires and completes: the guard holds and a front path
was recorded, so `process_two_views` does not raise. -/
def commitCompletes (s : LoopState) (i : TickInput) : Prop :=
  commitFires s i ∧ (midState s i).frontPath ≠ none

instance (s : LoopState) (i : TickInput) : Decidable (commitCompletes s i) := by
  unfold commitCompletes
  infer_instance

/-- Iterated ticks over a list of per-tick inputs. -/
def run (E : Env) (s : LoopState) (is : List TickInput) : LoopState :=
  is.foldl (fun t i => (tick E t i).1) s

/-! ### The level detector (`detect_canister_level`)

The raster pipeline up to and including `cv2.HoughLinesP` is an opaque
parameter `extract`, invoked with the scale-adapted vote threshold and
minimum segment length; an empty list models the `None` return of
`HoughLinesP`.  Everything after the extractor is translated directly. -/

/-- A line segment as produced by `cv2.HoughLinesP` (pixel coordinates). -/
structure Segment where
  x1 : ℤ
  y1 : ℤ
  x2 : ℤ
  y2 : ℤ
deriving DecidableEq, Repr

/-- Python `int()` on a real number: truncation toward zero. -/
def pyInt (q : ℚ) : ℤ :=
  if 0 ≤ q then ⌊q⌋ else -⌊-q⌋

/-- Scale of the crop relative to the ~700x300 reference:
`min(crop_width / 700.0, crop_height / 300.0)`. -/
def scale_factor (w h : ℕ) : ℚ :=
  min ((w : ℚ) / 700) ((h : ℚ) / 300)

/-- `min_line_length = max(10, int(25 * scale_factor))`. -/
def min_line_length (w h : ℕ) : ℤ :=
  max 10 (pyInt (25 * scale_factor w h))

/-- `hough_threshold = max(10, int(20 * scale_factor))`. -/
def hough_threshold (w h : ℕ) : ℤ :=
  max 10 (pyInt (20 * scale_factor w h))

open Real in
/-- `np.arctan2 y x` on the reals. -/
noncomputable def arctan2 (y x : ℝ) : ℝ :=
  if 0 < x then arctan (y / x)
  else if x < 0 then (if 0 ≤ y then arctan (y / x) + π else arctan (y / x) - π)
  else (if 0 < y then π / 2 else if y < 0 then -(π / 2) else 0)

open Real in
/-- Signed angle of a segment in degrees:
`np.degrees(np.arctan2(dy, dx))`. -/
noncomputable def angleDeg (s : Segment) : ℝ :=
  arctan2 ((s.y2 - s.y1 : ℤ) : ℝ) ((s.x2 - s.x1 : ℤ) : ℝ) * 180 / π

/-- Length of a segment: `np.sqrt(dx**2 + dy**2)`. -/
noncomputable def segLen (s : Segment) : ℝ :=
  Real.sqrt (((s.x2 - s.x1 : ℤ) : ℝ) ^ 2 + ((s.y2 - s.y1 : ℤ) : ℝ) ^ 2)

noncomputable instance (x y : ℝ) : Decidable (x < y) :=
  Classical.propDecidable _

noncomputable instance (x y : ℝ) : Decidable (x ≤ y) :=
  Classical.propDecidable _

/-- Vertical-band filter: both endpoints must lie between 20% and 60% of
the crop height (the loop `continue`s when `y < 0.2 h` or `y > 0.6 h`). -/
def posOK (h : ℕ) (s : Segment) : Prop :=
  ¬((s.y1 : ℚ) < (h : ℚ) * (2 / 10) ∨ (h : ℚ) * (6 / 10) < (s.y1 : ℚ)) ∧
  ¬((s.y2 : ℚ) < (h : ℚ) * (2 / 10) ∨ (h : ℚ) * (6 / 10) < (s.y2 : ℚ))

/-- A segment survives the candidate filter when it lies in the vertical
band, is not vertical (`dx == 0` is skipped) and its angle is within
30 degrees of horizontal (the loop `continue`s when `abs(angle) > 30`). -/
def surviveP (h : ℕ) (s : Segment) : Prop :=
  posOK h s ∧ s.x2 - s.x1 ≠ 0 ∧ |angleDeg s| ≤ 30

instance (h : ℕ) (s : Segment) : Decidable (posOK h s) := by
  unfold posOK
  infer_instance

noncomputable instance (h : ℕ) (s : Segment) : Decidable (surviveP h s) := by
  unfold surviveP
  infer_instance

/-- The candidate segments that survive the position/orientation filter,
in extraction order. -/
noncomputable def survivors (h : ℕ) (lines : List Segment) : List Segment :=
  lines.filter fun s => decide (surviveP h s)

/-- Accumulator of the per-line loop: the collected candidate angles, the
current best (longest) line with its angle, the best length so far, and
`horizontal_lines_found`. -/
structure ScanState where
  angles : List ℝ
  best : Option (Segment × ℝ)
  maxLen : ℝ
  count : ℕ

/-- Initial accumulator of the per-line loop. -/
noncomputable def scanInit : ScanState :=
  ⟨[], none, 0, 0⟩

/-- Processing of one surviving candidate: record its angle and bump the
candidate count, and adopt it as best line (with its angle) when strictly
longer than the best so far. -/
noncomputable def scanUpd (st : ScanState) (s : Segment) : ScanState :=
  if st.maxLen < segLen s then
    { angles := st.angles ++ [angleDeg s], best := some (s, angleDeg s),
      maxLen := segLen s, count := st.count + 1 }
  else
    { st with angles := st.angles ++ [angleDeg s], count := st.count + 1 }

/-- Processing of one extracted line: filtered lines leave the
accumulator unchanged. -/
noncomputable def scanLine (h : ℕ) (st : ScanState) (s : Segment) : ScanState :=
  if surviveP h s then scanUpd st s else st

/-- The whole per-line loop over the extracted segments. -/
noncomputable def scanLines (h : ℕ) (lines : List Segment) : ScanState :=
  lines.foldl (scanLine h) scanInit

/-- `np.mean` of a list of reals. -/
noncomputable def npMean (l : List ℝ) : ℝ :=
  l.sum / l.length

/-- `np.std` of a list of reals (population standard deviation). -/
noncomputable def npStd (l : List ℝ) : ℝ :=
  Real.sqrt ((l.map fun x => (x - npMean l) ^ 2).sum / l.length)

/-- The status dict returned by `detect_canister_level`. -/
structure CanStatus where
  id : ℕ
  is_level : Bool
  angle : ℝ
  has_top_line : Bool
  is_curved : Bool

/-- Logic of `detect_canister_level` after line extraction: on no lines
the defaults are returned; otherwise the filtered scan either finds no
suitable horizontal line (defaults again, `has_top_line` reset to
`False`) or selects the best line, levels against the tolerance, and
applies the curvature override when more than one candidate was found
with an angle standard deviation above 5. -/
noncomputable def detectFromLines (cid h : ℕ) (tol : ℝ) (lines : List Segment) :
    CanStatus :=
  let status0 : CanStatus :=
    { id := cid, is_level := true, angle := 0, has_top_line := false,
      is_curved := false }
  if lines = [] then status0
  else
    let st := scanLines h lines
    match st.best with
    | none => { status0 with has_top_line := false }
    | some (_, a) =>
        let curved : Bool := decide (1 < st.count ∧ 5 < npStd st.angles)
        { id := cid, is_level := if curved then false else decide (|a| < tol),
          angle := a, has_top_line := true, is_curved := curved }

/-- `detect_canister_level`: scale the extractor parameters from the crop
size, run the extractor, and classify its output. -/
noncomputable def detect_canister_level (extract : ℤ → ℤ → List Segment)
    (cid w h : ℕ) (tol : ℝ) : CanStatus :=
  detectFromLines cid h tol (extract (hough_threshold w h) (min_line_length w h))

/-! ### Concrete scenarios used to instantiate the theorems -/

/-- Environment in which every produced path decodes and every container
is level. -/
def envAllLevel : Env :=
  ⟨fun p => some p, fun _ _ => true⟩

/-- Environment in which container 1 is off-level in image 6 and
everything else is level. -/
def envC1Off : Env :=
  ⟨fun p => some p, fun img cid => !(img == 6 && cid == 1)⟩

/-- A capture dict that has not completed. -/
def obsNone : CapObs :=
  ⟨false, none⟩

/-- Tick input raising the start trigger. -/
def iTrig : TickInput :=
  ⟨1, 0, obsNone, obsNone⟩

/-- Tick input requesting the first view, whose capture completes at once
with path 5. -/
def iFirst : TickInput :=
  ⟨0, 1, ⟨true, some 5⟩, obsNone⟩

/-- Tick input requesting the second view; the back capture is pending. -/
def iSecondReq : TickInput :=
  ⟨0, 2, ⟨true, some 5⟩, obsNone⟩

/-- Tick input on which the back capture reports done with path 6 while
the step register reads 0. -/
def iBackDone : TickInput :=
  ⟨0, 0, ⟨true, some 5⟩, ⟨true, some 6⟩⟩

/-- Tick input on which the back capture reports done with a fault
(`path=None`) while the step register reads 0. -/
def iBackFault : TickInput :=
  ⟨0, 0, ⟨true, some 5⟩, ⟨true, none⟩⟩

/-- One full inspection session driven to a successful commit. -/
def session1 : List TickInput :=
  [iTrig, iFirst, iSecondReq, iBackDone]

/-- A second session whose back capture faults. -/
def session2 : List TickInput :=
  [iTrig, iFirst, iSecondReq, iBackFault]

/-- The loop state reached after a trigger, a completed first view and a
pending second-view request: ready to commit on the next completion. -/
def statePreCommit : LoopState :=
  run envAllLevel initState [iTrig, iFirst, iSecondReq]

/-- Horizontal example segment: angle 0, length 10. -/
def segH : Segment :=
  ⟨0, 4, 10, 4⟩

/-- Sloped example segment: slope 1/2, so its angle is
`arctan(1/2)` in degrees, about 26.6. -/
def segS : Segment :=
  ⟨0, 4, 2, 5⟩

/-- Example extractor output: the sloped then the horizontal segment. -/
def exLines : List Segment :=
  [segS, segH]

/-- Extractor stub returning `exLines`. -/
def exExtract : ℤ → ℤ → List Segment :=
  fun _ _ => exLines

/-- Extractor stub returning only the horizontal segment. -/
def exExtractH : ℤ → ℤ → List Segment :=
  fun _ _ => [segH]

/-- Extractor stub returning no segments. -/
def exExtractNil : ℤ → ℤ → List Segment :=
  fun _ _ => []

/-! ### Helper lemmas on the register bank and write traces -/

theorem writeAll_nil (r : Regs) : r.writeAll [] = r :=
  rfl

theorem writeAll_cons (r : Regs) (w : IReg × ℕ) (ws : List (IReg × ℕ)) :
    r.writeAll (w :: ws) = (r.write w).writeAll ws :=
  rfl

theorem writeAll_append (r : Regs) (a b : List (IReg × ℕ)) :
    r.writeAll (a ++ b) = (r.writeAll a).writeAll b := by
  simp [Regs.writeAll, List.foldl_append]

theorem write_keeps_version (r : Regs) (w : IReg × ℕ)
    (h : w.1 ≠ IReg.resultsVersion) :
    (r.write w).resultsVersion = r.resultsVersion := by
  rcases w with ⟨a, v⟩
  cases a <;> simp_all [Regs.write]

theorem writeAll_keeps_version (r : Regs) (ws : List (IReg × ℕ))
    (h : ∀ w ∈ ws, w.1 ≠ IReg.resultsVersion) :
    (r.writeAll ws).resultsVersion = r.resultsVersion := by
  induction ws generalizing r with
  | nil => rfl
  | cons w ws ih =>
      rw [writeAll_cons, ih _ fun x hx => h x (List.mem_cons_of_mem _ hx),
        write_keeps_version r w (h w (List.mem_cons_self _ _))]

theorem write_keeps_flags (r : Regs) (w : IReg × ℕ)
    (h : w.1 ≠ IReg.c1 ∧ w.1 ≠ IReg.c2 ∧ w.1 ≠ IReg.c3 ∧ w.1 ≠ IReg.c4) :
    (r.write w).c1 = r.c1 ∧ (r.write w).c2 = r.c2 ∧
      (r.write w).c3 = r.c3 ∧ (r.write w).c4 = r.c4 := by
  rcases w with ⟨a, v⟩
  cases a <;> simp_all [Regs.write]

theorem writeAll_keeps_flags (r : Regs) (ws : List (IReg × ℕ))
    (h : ∀ w ∈ ws, w.1 ≠ IReg.c1 ∧ w.1 ≠ IReg.c2 ∧ w.1 ≠ IReg.c3 ∧ w.1 ≠ IReg.c4) :
    (r.writeAll ws).c1 = r.c1 ∧ (r.writeAll ws).c2 = r.c2 ∧
      (r.writeAll ws).c3 = r.c3 ∧ (r.writeAll ws).c4 = r.c4 := by
  induction ws generalizing r with
  | nil => exact ⟨rfl, rfl, rfl, rfl⟩
  | cons w ws ih =>
      have h1 := write_keeps_flags r w (h w (List.mem_cons_self _ _))
      have h2 := ih (r.write w) fun x hx => h x (List.mem_cons_of_mem _ hx)
      rw [writeAll_cons]
      exact ⟨h2.1.trans h1.1, h2.2.1.trans h1.2.1, h2.2.2.1.trans h1.2.2.1,
        h2.2.2.2.trans h1.2.2.2⟩

theorem prefix_append_cases {α : Type} {p a b : List α} (h : p <+: a ++ b) :
    p <+: a ∨ ∃ q, q <+: b ∧ p = a ++ q := by
  induction a generalizing p with
  | nil => exact Or.inr ⟨p, by simpa using h, rfl⟩
  | cons x a ih =>
      cases p with
      | nil => exact Or.inl List.nil_prefix
      | cons y p' =>
          rw [List.cons_append, List.cons_prefix_cons] at h
          rcases h with ⟨rfl, h'⟩
          rcases ih h' with h1 | ⟨q, hq, rfl⟩
          · exact Or.inl (List.cons_prefix_cons.mpr ⟨rfl, h1⟩)
          · exact Or.inr ⟨q, hq, rfl⟩

theorem prefix_six {α : Type} {w1 w2 w3 w4 w5 w6 : α} {q : List α}
    (h : q <+: [w1, w2, w3, w4, w5, w6]) :
    q = [] ∨ q = [w1] ∨ q = [w1, w2] ∨ q = [w1, w2, w3] ∨
      q = [w1, w2, w3, w4] ∨ q = [w1, w2, w3, w4, w5] ∨
      q = [w1, w2, w3, w4, w5, w6] := by
  have h6 : q.length ≤ 6 := by simpa using h.length_le
  have ht := List.prefix_iff_eq_take.mp h
  have hd : q.length = 0 ∨ q.length = 1 ∨ q.length = 2 ∨ q.length = 3 ∨
      q.length = 4 ∨ q.length = 5 ∨ q.length = 6 := by omega
  rcases hd with e | e | e | e | e | e | e <;> rw [e] at ht
  · exact Or.inl (ht.trans rfl)
  · exact Or.inr (Or.inl (ht.trans rfl))
  · exact Or.inr (Or.inr (Or.inl (ht.trans rfl)))
  · exact Or.inr (Or.inr (Or.inr (Or.inl (ht.trans rfl))))
  · exact Or.inr (Or.inr (Or.inr (Or.inr (Or.inl (ht.trans rfl)))))
  · exact Or.inr (Or.inr (Or.inr (Or.inr (Or.inr (Or.inl (ht.trans rfl))))))
  · exact Or.inr (Or.inr (Or.inr (Or.inr (Or.inr (Or.inr (ht.trans rfl))))))

/-! ### Stage lemmas about one tick -/

theorem afterEdge_writes (s : LoopState) (i : TickInput) :
    ∀ w ∈ (afterEdge s i).2,
      w.1 = IReg.inspectionId ∨ w.1 = IReg.photoStepDone := by
  unfold afterEdge
  split <;> simp

theorem afterFirstDone_writes (s : LoopState) (i : TickInput) :
    ∀ w ∈ (afterFirstDone s i).2, w.1 = IReg.photoStepDone := by
  unfold afterFirstDone
  split <;> simp

theorem preCommit_writes (s : LoopState) (i : TickInput) :
    ∀ w ∈ (afterEdge s i).2 ++ (afterFirstDone s i).2,
      w.1 = IReg.inspectionId ∨ w.1 = IReg.photoStepDone := by
  intro w hw
  rcases List.mem_append.mp hw with h | h
  · exact afterEdge_writes s i w h
  · exact Or.inr (afterFirstDone_writes s i w h)

theorem afterEdge_regs (s : LoopState) (i : TickInput) :
    (afterEdge s i).1.regs = s.regs.writeAll (afterEdge s i).2 := by
  unfold afterEdge
  split <;> rfl

theorem afterFirstReq_regs (s : LoopState) (i : TickInput) :
    (afterFirstReq s i).regs = (afterEdge s i).1.regs := by
  unfold afterFirstReq afterPrev
  split <;> rfl

theorem afterFirstDone_regs (s : LoopState) (i : TickInput) :
    (afterFirstDone s i).1.regs
      = s.regs.writeAll ((afterEdge s i).2 ++ (afterFirstDone s i).2) := by
  rw [writeAll_append, ← afterEdge_regs]
  unfold afterFirstDone
  split
  · simp only
    rw [afterFirstReq_regs]
    rfl
  · rw [afterFirstReq_regs]
    rfl

theorem midState_regs (s : LoopState) (i : TickInput) :
    (midState s i).regs
      = s.regs.writeAll ((afterEdge s i).2 ++ (afterFirstDone s i).2) := by
  rw [← afterFirstDone_regs]
  unfold midState
  split <;> rfl

theorem process_two_views_eq_none (E : Env) (f b : Option FPath) :
    process_two_views E f b = none ↔ f = none := by
  cases f <;> simp [process_two_views]

theorem tick_commit (E : Env) (s : LoopState) (i : TickInput)
    (h : commitFires s i) (r : Results)
    (hr : process_two_views E (midState s i).frontPath i.backObs.path = some r) :
    tick E s i
      = ({ (midState s i) with
            backPath := i.backObs.path, photoStepDone := 2,
            resultsVersion := (midState s i).resultsVersion + 1,
            regs := (midState s i).regs.writeAll (commitWrites s i r) },
         ((afterEdge s i).2 ++ (afterFirstDone s i).2) ++ commitWrites s i r) := by
  unfold tick
  rw [if_pos h, hr]

theorem tick_abort (E : Env) (s : LoopState) (i : TickInput)
    (h : commitFires s i)
    (hr : process_two_views E (midState s i).frontPath i.backObs.path = none) :
    tick E s i
      = ({ (midState s i) with backPath := i.backObs.path },
         (afterEdge s i).2 ++ (afterFirstDone s i).2) := by
  unfold tick
  rw [if_pos h, hr]

theorem tick_nocommit (E : Env) (s : LoopState) (i : TickInput)
    (h : ¬ commitFires s i) :
    tick E s i = (midState s i, (afterEdge s i).2 ++ (afterFirstDone s i).2) := by
  unfold tick
  rw [if_neg h]

theorem preCommit_keeps_version (s : LoopState) (i : TickInput) :
    (s.regs.writeAll ((afterEdge s i).2 ++ (afterFirstDone s i).2)).resultsVersion
      = s.regs.resultsVersion := by
  refine writeAll_keeps_version _ _ fun w hw => ?_
  rcases preCommit_writes s i w hw with h | h <;> simp [h]

/-- C1.  On every tick, any externally observable prefix of the tick's
register-write trace that shows a changed results_version already shows
exactly the four flag values of the completed commit: the four flag
registers are written before the version register is incremented. -/
theorem commit_atomicity (E : Env) (s : LoopState) (i : TickInput)
    (p : List (IReg × ℕ)) (hp : p <+: (tick E s i).2)
    (hv : (s.regs.writeAll p).resultsVersion ≠ s.regs.resultsVersion) :
    (s.regs.writeAll p).c1 = (tick E s i).1.regs.c1 ∧
    (s.regs.writeAll p).c2 = (tick E s i).1.regs.c2 ∧
    (s.regs.writeAll p).c3 = (tick E s i).1.regs.c3 ∧
    (s.regs.writeAll p).c4 = (tick E s i).1.regs.c4 := by
  by_cases hc : commitFires s i
  · cases hm : process_two_views E (midState s i).frontPath i.backObs.path with
    | none =>
        rw [tick_abort E s i hc hm] at hp
        dsimp only at hp
        refine absurd (writeAll_keeps_version _ _ fun w hw => ?_) hv
        rcases preCommit_writes s i w (hp.subset hw) with h | h <;> simp [h]
    | some r =>
        rw [tick_commit E s i hc r hm] at hp ⊢
        dsimp only at hp ⊢
        rcases prefix_append_cases hp with h1 | ⟨q, hq, rfl⟩
        · refine absurd (writeAll_keeps_version _ _ fun w hw => ?_) hv
          rcases preCommit_writes s i w (h1.subset hw) with h | h <;> simp [h]
        · rw [writeAll_append] at hv ⊢
          rw [midState_regs]
          simp only [commitWrites] at hq ⊢
          rcases prefix_six hq with rfl | rfl | rfl | rfl | rfl | rfl | rfl
          · exact absurd (preCommit_keeps_version s i) hv
          · refine absurd ?_ hv
            rw [writeAll_keeps_version _ _ (by simp), preCommit_keeps_version s i]
          · refine absurd ?_ hv
            rw [writeAll_keeps_version _ _ (by simp), preCommit_keeps_version s i]
          · refine absurd ?_ hv
            rw [writeAll_keeps_version _ _ (by simp), preCommit_keeps_version s i]
          · refine absurd ?_ hv
            rw [writeAll_keeps_version _ _ (by simp), preCommit_keeps_version s i]
          · refine absurd ?_ hv
            rw [writeAll_keeps_version _ _ (by simp), preCommit_keeps_version s i]
          · exact ⟨rfl, rfl, rfl, rfl⟩
  · rw [tick_nocommit E s i hc] at hp
    dsimp only at hp
    refine absurd (writeAll_keeps_version _ _ fun w hw => ?_) hv
    rcases preCommit_writes s i w (hp.subset hw) with h | h <;> simp [h]

/-- Witness for C1: the concrete commit tick after a full session prefix;
the whole trace is a prefix of itself, the version changes, and the flag
registers hold the committed values. -/
theorem commit_atomicity_witness :
    ((statePreCommit.regs.writeAll
        (tick envAllLevel statePreCommit iBackDone).2).resultsVersion
      ≠ statePreCommit.regs.resultsVersion) ∧
    ((statePreCommit.regs.writeAll
        (tick envAllLevel statePreCommit iBackDone).2).c1
      = (tick envAllLevel statePreCommit iBackDone).1.regs.c1 ∧
     (statePreCommit.regs.writeAll
        (tick envAllLevel statePreCommit iBackDone).2).c2
      = (tick envAllLevel statePreCommit iBackDone).1.regs.c2 ∧
     (statePreCommit.regs.writeAll
        (tick envAllLevel statePreCommit iBackDone).2).c3
      = (tick envAllLevel statePreCommit iBackDone).1.regs.c3 ∧
     (statePreCommit.regs.writeAll
        (tick envAllLevel statePreCommit iBackDone).2).c4
      = (tick envAllLevel statePreCommit iBackDone).1.regs.c4) :=
  ⟨by decide,
   commit_atomicity envAllLevel statePreCommit iBackDone _
     (List.prefix_refl _) (by decide)⟩

/-! ### Field-preservation lemmas along the tick pipeline -/

theorem afterEdge_inspectionId (s : LoopState) (i : TickInput) :
    (afterEdge s i).1.inspectionId
      = if i.mm = 1 ∧ s.prevMm = 0 then s.inspectionId + 1 else s.inspectionId := by
  unfold afterEdge
  split <;> rfl

theorem afterFirstReq_inspectionId (s : LoopState) (i : TickInput) :
    (afterFirstReq s i).inspectionId = (afterEdge s i).1.inspectionId := by
  unfold afterFirstReq
  split <;> rfl

theorem afterFirstDone_inspectionId (s : LoopState) (i : TickInput) :
    (afterFirstDone s i).1.inspectionId = (afterEdge s i).1.inspectionId := by
  unfold afterFirstDone
  split <;> exact afterFirstReq_inspectionId s i

theorem midState_inspectionId (s : LoopState) (i : TickInput) :
    (midState s i).inspectionId = (afterEdge s i).1.inspectionId := by
  unfold midState
  split <;> exact afterFirstDone_inspectionId s i

theorem tick_inspectionId (E : Env) (s : LoopState) (i : TickInput) :
    (tick E s i).1.inspectionId
      = if i.mm = 1 ∧ s.prevMm = 0 then s.inspectionId + 1 else s.inspectionId := by
  rw [← afterEdge_inspectionId, ← midState_inspectionId]
  unfold tick
  split
  · split <;> rfl
  · rfl

theorem afterFirstReq_prevMm (s : LoopState) (i : TickInput) :
    (afterFirstReq s i).prevMm = i.mm := by
  unfold afterFirstReq
  split <;> rfl

theorem afterFirstDone_prevMm (s : LoopState) (i : TickInput) :
    (afterFirstDone s i).1.prevMm = i.mm := by
  unfold afterFirstDone
  split <;> exact afterFirstReq_prevMm s i

theorem midState_prevMm (s : LoopState) (i : TickInput) :
    (midState s i).prevMm = i.mm := by
  unfold midState
  split <;> exact afterFirstDone_prevMm s i

theorem tick_prevMm (E : Env) (s : LoopState) (i : TickInput) :
    (tick E s i).1.prevMm = i.mm := by
  rw [← midState_prevMm s i]
  unfold tick
  split
  · split <;> rfl
  · rfl

theorem afterEdge_resultsVersion (s : LoopState) (i : TickInput) :
    (afterEdge s i).1.resultsVersion = s.resultsVersion := by
  unfold afterEdge
  split <;> rfl

theorem afterFirstReq_resultsVersion (s : LoopState) (i : TickInput) :
    (afterFirstReq s i).resultsVersion = s.resultsVersion := by
  unfold afterFirstReq
  split <;> exact afterEdge_resultsVersion s i

theorem afterFirstDone_resultsVersion (s : LoopState) (i : TickInput) :
    (afterFirstDone s i).1.resultsVersion = s.resultsVersion := by
  unfold afterFirstDone
  split <;> exact afterFirstReq_resultsVersion s i

theorem midState_resultsVersion (s : LoopState) (i : TickInput) :
    (midState s i).resultsVersion = s.resultsVersion := by
  unfold midState
  split <;> exact afterFirstDone_resultsVersion s i

theorem tick_resultsVersion (E : Env) (s : LoopState) (i : TickInput) :
    (tick E s i).1.resultsVersion
      = if commitCompletes s i then s.resultsVersion + 1 else s.resultsVersion := by
  by_cases hc : commitFires s i
  · cases hm : process_two_views E (midState s i).frontPath i.backObs.path with
    | none =>
        rw [tick_abort E s i hc hm,
          if_neg (fun hcc => hcc.2 ((process_two_views_eq_none E _ _).mp hm))]
        exact midState_resultsVersion s i
    | some r =>
        have hf : (midState s i).frontPath ≠ none := fun h0 => by
          rw [(process_two_views_eq_none E _ _).mpr h0] at hm
          cases hm
        rw [tick_commit E s i hc r hm, if_pos ⟨hc, hf⟩]
        show (midState s i).resultsVersion + 1 = _
        rw [midState_resultsVersion]
  · rw [tick_nocommit E s i hc, if_neg (fun hcc => hc hcc.1)]
    exact midState_resultsVersion s i

theorem run_cons (E : Env) (s : LoopState) (i : TickInput) (is : List TickInput) :
    run E s (i :: is) = run E (tick E s i).1 is :=
  rfl

theorem run_append (E : Env) (s : LoopState) (a b : List TickInput) :
    run E s (a ++ b) = run E (run E s a) b := by
  simp [run, List.foldl_append]

theorem run_high_keeps_id (E : Env) :
    ∀ (is : List TickInput) (s : LoopState), s.prevMm = 1 →
      (∀ i ∈ is, i.mm = 1) → (run E s is).inspectionId = s.inspectionId := by
  intro is
  induction is with
  | nil => intro s _ _; rfl
  | cons i is ih =>
      intro s hs hall
      have hmm : i.mm = 1 := hall i (List.mem_cons_self _ _)
      rw [run_cons, ih _ (by rw [tick_prevMm]; exact hmm)
          (fun j hj => hall j (List.mem_cons_of_mem _ hj)),
        tick_inspectionId, if_neg (by simp [hs])]

/-- C2.  A new session is allocated on a tick exactly at a rising edge of
the trigger (previous read 0, current read 1), in which case the session
id grows by exactly 1; and a trigger held at 1 over any positive number
of consecutive ticks after a 0 read starts exactly one session. -/
theorem single_session_per_pulse (E : Env) :
    (∀ (s : LoopState) (i : TickInput),
        ((tick E s i).1.inspectionId = s.inspectionId + 1 ↔
          (i.mm = 1 ∧ s.prevMm = 0)) ∧
        (¬(i.mm = 1 ∧ s.prevMm = 0) →
          (tick E s i).1.inspectionId = s.inspectionId)) ∧
    (∀ (s : LoopState) (is : List TickInput), s.prevMm = 0 → is ≠ [] →
        (∀ i ∈ is, i.mm = 1) → (run E s is).inspectionId = s.inspectionId + 1) := by
  constructor
  · intro s i
    rw [tick_inspectionId]
    split
    · simp_all
    · constructor
      · constructor
        · intro h; omega
        · intro h; simp_all
      · intro _; rfl
  · intro s is h0 hne hall
    cases is with
    | nil => exact absurd rfl hne
    | cons i is =>
        have hmm : i.mm = 1 := hall i (List.mem_cons_self _ _)
        rw [run_cons, run_high_keeps_id E is _ (by rw [tick_prevMm]; exact hmm)
            (fun j hj => hall j (List.mem_cons_of_mem _ hj)),
          tick_inspectionId, if_pos ⟨hmm, h0⟩]

/-- Witness for C2: holding the trigger high across three consecutive
ticks from the initial state allocates exactly one session. -/
theorem single_session_per_pulse_witness :
    (run envAllLevel initState [iTrig, iTrig, iTrig]).inspectionId
      = initState.inspectionId + 1 :=
  (single_session_per_pulse envAllLevel).2 initState [iTrig, iTrig, iTrig]
    rfl (by decide) (by decide)

/-! ### Version-register lemmas -/

theorem midState_regs_version (s : LoopState) (i : TickInput) :
    (midState s i).regs.resultsVersion = s.regs.resultsVersion := by
  rw [midState_regs]
  exact preCommit_keeps_version s i

theorem commit_regs_version (s : LoopState) (i : TickInput) (r : Results) :
    ((midState s i).regs.writeAll (commitWrites s i r)).resultsVersion
      = (midState s i).resultsVersion + 1 :=
  rfl

theorem tick_regs_version (E : Env) (s : LoopState) (i : TickInput) :
    (tick E s i).1.regs.resultsVersion
      = if commitCompletes s i then (midState s i).resultsVersion + 1
        else s.regs.resultsVersion := by
  by_cases hc : commitFires s i
  · cases hm : process_two_views E (midState s i).frontPath i.backObs.path with
    | none =>
        rw [tick_abort E s i hc hm,
          if_neg (fun hcc => hcc.2 ((process_two_views_eq_none E _ _).mp hm))]
        exact midState_regs_version s i
    | some r =>
        have hf : (midState s i).frontPath ≠ none := fun h0 => by
          rw [(process_two_views_eq_none E _ _).mpr h0] at hm
          cases hm
        rw [tick_commit E s i hc r hm, if_pos ⟨hc, hf⟩]
        exact commit_regs_version s i r
  · rw [tick_nocommit E s i hc, if_neg (fun hcc => hc hcc.1)]
    exact midState_regs_version s i

theorem tick_synced (E : Env) (s : LoopState) (i : TickInput)
    (h : s.regs.resultsVersion = s.resultsVersion) :
    (tick E s i).1.regs.resultsVersion = (tick E s i).1.resultsVersion := by
  rw [tick_regs_version, tick_resultsVersion]
  split
  · rw [midState_resultsVersion]
  · exact h

theorem run_synced_aux (E : Env) :
    ∀ (is : List TickInput) (s : LoopState),
      s.regs.resultsVersion = s.resultsVersion →
      (run E s is).regs.resultsVersion = (run E s is).resultsVersion := by
  intro is
  induction is with
  | nil => intro s h; exact h
  | cons i is ih => intro s h; rw [run_cons]; exact ih _ (tick_synced E s i h)

theorem run_synced (E : Env) (is : List TickInput) :
    (run E initState is).regs.resultsVersion = (run E initState is).resultsVersion :=
  run_synced_aux E is initState rfl

theorem tick_version_mono (E : Env) (s : LoopState) (i : TickInput)
    (h : s.regs.resultsVersion = s.resultsVersion) :
    s.regs.resultsVersion ≤ (tick E s i).1.regs.resultsVersion := by
  rw [tick_regs_version]
  split
  · rw [midState_resultsVersion, h]; omega
  · exact le_rfl

/-- C3.  From the initial state, the published results_version register
is bumped by exactly 1 on each tick whose commit completes (guard fired
and a front path was recorded, so `process_two_views` returns results),
and is unchanged on every other tick — including a guard-firing tick
whose commit attempt raises on a missing front path and writes nothing —
and is non-decreasing along every run of the loop. -/
theorem monotonic_results_version (E : Env) :
    (∀ (is : List TickInput) (i : TickInput),
        (tick E (run E initState is) i).1.regs.resultsVersion
          = if commitCompletes (run E initState is) i
            then (run E initState is).regs.resultsVersion + 1
            else (run E initState is).regs.resultsVersion) ∧
    (∀ (is : List TickInput) (n m : ℕ), n ≤ m →
        (run E initState (is.take n)).regs.resultsVersion
          ≤ (run E initState (is.take m)).regs.resultsVersion) := by
  constructor
  · intro is i
    rw [tick_regs_version]
    split
    · rw [midState_resultsVersion, run_synced]
    · rfl
  · intro is n m hnm
    induction m, hnm using Nat.le_induction with
    | base => exact le_rfl
    | succ m hnm ih =>
        refine ih.trans ?_
        rw [List.take_succ, run_append]
        cases h : is[m]? with
        | none => exact le_rfl
        | some x => exact tick_version_mono E _ x (run_synced E _)

/-- Witness for C3: along the concrete successful session the register
version is non-decreasing from the empty prefix to the full run. -/
theorem monotonic_results_version_witness :
    (run envAllLevel initState (session1.take 0)).regs.resultsVersion
      ≤ (run envAllLevel initState (session1.take 4)).regs.resultsVersion :=
  (monotonic_results_version envAllLevel).2 session1 0 4 (by decide)

/-! ### The commit guard does not re-read the step register (C4) -/

/-- Counterexample to C4 as stated: in a session in phase FirstCaptured
with the second capture outstanding, the tick on which the capture
reports done reads a step-request of 0 (not 2), yet the commit proceeds
and the results_version register is bumped. -/
theorem commit_without_step_recheck :
    iBackDone.step ≠ 2 ∧
    commitFires statePreCommit iBackDone ∧
    (tick envAllLevel statePreCommit iBackDone).1.regs.resultsVersion
      = statePreCommit.regs.resultsVersion + 1 := by
  decide

/-- C4 amended.  In phase FirstCaptured with a second capture
outstanding, a front path recorded (so the commit does not raise) and no
new trigger arriving, the commit is performed exactly when the second
capture task reports done; the step-request register is not re-read, so
its value on that tick is irrelevant. -/
theorem commit_on_capture_done (E : Env) (s : LoopState) (i : TickInput)
    (h1 : s.photoStepDone = 1) (h2 : s.backCap = true) (h3 : s.frontCap = true)
    (h4 : s.backPath = none) (h5 : ¬(i.mm = 1 ∧ s.prevMm = 0))
    (h6 : s.frontPath ≠ none) :
    ((tick E s i).1.resultsVersion = s.resultsVersion + 1 ↔
        i.backObs.done = true) ∧
    (i.backObs.done = false →
        (tick E s i).1.resultsVersion = s.resultsVersion) := by
  have hmid : (midState s i).backCap = true ∧ (midState s i).backPath = none ∧
      (midState s i).photoStepDone = 1 ∧
      (midState s i).frontPath = s.frontPath := by
    unfold midState afterFirstDone afterFirstReq afterPrev afterEdge
    rw [if_neg h5]
    split_ifs <;> simp_all
  have hcf : commitFires s i ↔ i.backObs.done = true := by
    unfold commitFires
    simp [hmid.1, hmid.2.1, hmid.2.2.1]
  have hcc : commitCompletes s i ↔ i.backObs.done = true := by
    unfold commitCompletes
    constructor
    · intro h
      exact hcf.mp h.1
    · intro hd
      refine ⟨hcf.mpr hd, ?_⟩
      rw [hmid.2.2.2]
      exact h6
  rw [tick_resultsVersion]
  by_cases hd : i.backObs.done = true
  · rw [if_pos (hcc.mpr hd)]
    exact ⟨by simp [hd], by simp [hd]⟩
  · rw [if_neg fun hc => hd (hcc.mp hc)]
    constructor
    · constructor
      · intro h; omega
      · intro h; exact absurd h hd
    · intro _; rfl

/-- Witness for C4's amended theorem: the concrete ready-to-commit state
(front path recorded) with the completing capture. -/
theorem commit_on_capture_done_witness :
    ((tick envAllLevel statePreCommit iBackDone).1.resultsVersion
        = statePreCommit.resultsVersion + 1 ↔ iBackDone.backObs.done = true) ∧
    (iBackDone.backObs.done = false →
        (tick envAllLevel statePreCommit iBackDone).1.resultsVersion
          = statePreCommit.resultsVersion) :=
  commit_on_capture_done envAllLevel statePreCommit iBackDone
    (by decide) (by decide) (by decide) (by decide) (by decide) (by decide)

/-! ### Capture faults zero the affected flags (C5) -/

/-- Counterexample to C5 as stated: container 1's flag register is 1
after a first successful session; a second session whose back capture
faults (`path=None`) commits (version reaches 2) and overwrites the flag
register with 0 instead of retaining the previous value 1. -/
theorem fault_overwrites_flags :
    (run envC1Off initState session1).regs.c1 = 1 ∧
    (run envC1Off initState (session1 ++ session2)).regs.resultsVersion = 2 ∧
    (run envC1Off initState (session1 ++ session2)).regs.c1 = 0 := by
  decide

theorem midState_keeps_flags (s : LoopState) (i : TickInput) :
    (midState s i).regs.c1 = s.regs.c1 ∧ (midState s i).regs.c2 = s.regs.c2 ∧
    (midState s i).regs.c3 = s.regs.c3 ∧ (midState s i).regs.c4 = s.regs.c4 := by
  rw [midState_regs]
  exact writeAll_keeps_flags s.regs _ fun w hw => by
    rcases preCommit_writes s i w hw with h | h <;> simp [h]

/-- C5 amended.  On a guard-firing tick whose back capture completed with
`path=None` while a front path is recorded, the detection step treats the
back view as unprocessable, the commit completes, and the back-view flag
registers are written to 0 (reported as level), overwriting previous
values.  When instead the front path is missing (front-capture fault),
the commit attempt raises inside `process_two_views`: no commit register
is written, the flag and version registers keep their values, and the
back path gets recorded (so this commit is not retried) — the tick loop
itself does not crash. -/
theorem fault_defaults_flags_zero (E : Env) (s : LoopState) (i : TickInput)
    (hc : commitFires s i) :
    ((midState s i).frontPath ≠ none → i.backObs.path = none →
        (tick E s i).1.regs.c1 = 0 ∧ (tick E s i).1.regs.c2 = 0 ∧
        (tick E s i).1.regs.resultsVersion = s.resultsVersion + 1) ∧
    ((midState s i).frontPath = none →
        (tick E s i).2 = (afterEdge s i).2 ++ (afterFirstDone s i).2 ∧
        (tick E s i).1.regs.c1 = s.regs.c1 ∧
        (tick E s i).1.regs.c2 = s.regs.c2 ∧
        (tick E s i).1.regs.c3 = s.regs.c3 ∧
        (tick E s i).1.regs.c4 = s.regs.c4 ∧
        (tick E s i).1.regs.resultsVersion = s.regs.resultsVersion ∧
        (tick E s i).1.resultsVersion = s.resultsVersion ∧
        (tick E s i).1.backPath = i.backObs.path) := by
  constructor
  · intro hf hb
    obtain ⟨fp, hfp⟩ := Option.ne_none_iff_exists'.mp hf
    have hm : process_two_views E (midState s i).frontPath i.backObs.path
        = some ⟨0, 0,
            pyFlag (process_containers_automated E (some fp) [3, 4] .front).c3,
            pyFlag (process_containers_automated E (some fp) [3, 4] .front).c4⟩ := by
      rw [hfp, hb]
      rfl
    rw [tick_commit E s i hc _ hm]
    dsimp only
    refine ⟨rfl, rfl, ?_⟩
    show (midState s i).resultsVersion + 1 = s.resultsVersion + 1
    rw [midState_resultsVersion]
  · intro hf
    have hm : process_two_views E (midState s i).frontPath i.backObs.path
        = none := by
      rw [hf]
      rfl
    rw [tick_abort E s i hc hm]
    dsimp only
    have hk := midState_keeps_flags s i
    exact ⟨rfl, hk.1, hk.2.1, hk.2.2.1, hk.2.2.2, midState_regs_version s i,
      midState_resultsVersion s i, rfl⟩

/-- Witness for C5's amended theorem: the concrete back-faulting commit
with a recorded front path. -/
theorem fault_defaults_flags_zero_witness :
    commitFires statePreCommit iBackFault ∧
    (((midState statePreCommit iBackFault).frontPath ≠ none →
        iBackFault.backObs.path = none →
        (tick envAllLevel statePreCommit iBackFault).1.regs.c1 = 0 ∧
        (tick envAllLevel statePreCommit iBackFault).1.regs.c2 = 0 ∧
        (tick envAllLevel statePreCommit iBackFault).1.regs.resultsVersion
          = statePreCommit.resultsVersion + 1) ∧
     ((midState statePreCommit iBackFault).frontPath = none →
        (tick envAllLevel statePreCommit iBackFault).2
          = (afterEdge statePreCommit iBackFault).2
              ++ (afterFirstDone statePreCommit iBackFault).2 ∧
        (tick envAllLevel statePreCommit iBackFault).1.regs.c1
          = statePreCommit.regs.c1 ∧
        (tick envAllLevel statePreCommit iBackFault).1.regs.c2
          = statePreCommit.regs.c2 ∧
        (tick envAllLevel statePreCommit iBackFault).1.regs.c3
          = statePreCommit.regs.c3 ∧
        (tick envAllLevel statePreCommit iBackFault).1.regs.c4
          = statePreCommit.regs.c4 ∧
        (tick envAllLevel statePreCommit iBackFault).1.regs.resultsVersion
          = statePreCommit.regs.resultsVersion ∧
        (tick envAllLevel statePreCommit iBackFault).1.resultsVersion
          = statePreCommit.resultsVersion ∧
        (tick envAllLevel statePreCommit iBackFault).1.backPath
          = iBackFault.backObs.path)) :=
  ⟨by decide, fault_defaults_flags_zero envAllLevel statePreCommit iBackFault
    (by decide)⟩

/-! ### Frame effect of a trigger tick (C10) -/

theorem write_keeps_id (r : Regs) (w : IReg × ℕ)
    (h : w.1 ≠ IReg.inspectionId) :
    (r.write w).inspectionId = r.inspectionId := by
  rcases w with ⟨a, v⟩
  cases a <;> simp_all [Regs.write]

theorem writeAll_keeps_id (r : Regs) (ws : List (IReg × ℕ))
    (h : ∀ w ∈ ws, w.1 ≠ IReg.inspectionId) :
    (r.writeAll ws).inspectionId = r.inspectionId := by
  induction ws generalizing r with
  | nil => rfl
  | cons w ws ih =>
      rw [writeAll_cons, ih _ fun x hx => h x (List.mem_cons_of_mem _ hx),
        write_keeps_id r w (h w (List.mem_cons_self _ _))]

theorem afterFirstReq_backCap (s : LoopState) (i : TickInput) :
    (afterFirstReq s i).backCap = (afterPrev s i).backCap := by
  unfold afterFirstReq
  split <;> rfl

theorem afterFirstDone_backCap (s : LoopState) (i : TickInput) :
    (afterFirstDone s i).1.backCap = (afterFirstReq s i).backCap := by
  unfold afterFirstDone
  split <;> rfl

theorem midState_backCap_edge (s : LoopState) (i : TickInput)
    (hmm : i.mm = 1) (hp : s.prevMm = 0) :
    (midState s i).backCap = false := by
  have hfc : (afterPrev s i).frontCap = false := by
    unfold afterPrev afterEdge
    rw [if_pos ⟨hmm, hp⟩]
  have hpsd : (afterPrev s i).photoStepDone = 0 := by
    unfold afterPrev afterEdge
    rw [if_pos ⟨hmm, hp⟩]
  have hbc : (afterPrev s i).backCap = false := by
    unfold afterPrev afterEdge
    rw [if_pos ⟨hmm, hp⟩]
  unfold midState
  split_ifs with h2
  · exfalso
    have hreq : afterFirstReq s i = afterPrev s i := by
      unfold afterFirstReq
      rw [if_neg]
      intro hcon
      exact absurd (hcon.1.symm.trans h2.1) (by decide)
    have hdone : (afterFirstDone s i).1.photoStepDone = 0 := by
      unfold afterFirstDone
      rw [if_neg]
      · rw [hreq]; exact hpsd
      · rw [hreq]
        intro hcon
        rw [hfc] at hcon
        exact Bool.noConfusion hcon.1
    rw [hdone] at h2
    exact absurd h2.2.1 (by decide)
  · rw [afterFirstDone_backCap, afterFirstReq_backCap]
    exact hbc

theorem edge_no_commit (s : LoopState) (i : TickInput)
    (hmm : i.mm = 1) (hp : s.prevMm = 0) :
    ¬ commitFires s i := by
  intro hc
  have hb := midState_backCap_edge s i hmm hp
  rw [hc.1] at hb
  exact Bool.noConfusion hb

theorem afterEdge_trace_edge (s : LoopState) (i : TickInput)
    (hmm : i.mm = 1) (hp : s.prevMm = 0) :
    (afterEdge s i).2
      = [(IReg.inspectionId, s.inspectionId + 1), (IReg.photoStepDone, 0)] := by
  unfold afterEdge
  rw [if_pos ⟨hmm, hp⟩]

/-- C10.  A rising-edge tick rewrites only the session-id and phase
registers — the id register incremented and the phase register first
written 0 — and leaves the four flag registers and the version register
untouched; moreover every non-committing tick leaves the flag and
version registers unchanged, so the last committed values persist until
the next commit. -/
theorem trigger_frame_effect (E : Env) :
    (∀ (s : LoopState) (i : TickInput), i.mm = 1 → s.prevMm = 0 →
        (∀ w ∈ (tick E s i).2,
            w.1 = IReg.inspectionId ∨ w.1 = IReg.photoStepDone) ∧
        ((tick E s i).2.take 2
            = [(IReg.inspectionId, s.inspectionId + 1), (IReg.photoStepDone, 0)]) ∧
        (tick E s i).1.regs.inspectionId = s.inspectionId + 1 ∧
        (tick E s i).1.regs.c1 = s.regs.c1 ∧ (tick E s i).1.regs.c2 = s.regs.c2 ∧
        (tick E s i).1.regs.c3 = s.regs.c3 ∧ (tick E s i).1.regs.c4 = s.regs.c4 ∧
        (tick E s i).1.regs.resultsVersion = s.regs.resultsVersion) ∧
    (∀ (s : LoopState) (i : TickInput), ¬ commitFires s i →
        (tick E s i).1.regs.c1 = s.regs.c1 ∧ (tick E s i).1.regs.c2 = s.regs.c2 ∧
        (tick E s i).1.regs.c3 = s.regs.c3 ∧ (tick E s i).1.regs.c4 = s.regs.c4 ∧
        (tick E s i).1.regs.resultsVersion = s.regs.resultsVersion) := by
  have keep : ∀ (s : LoopState) (i : TickInput), ¬ commitFires s i →
      (tick E s i).1.regs.c1 = s.regs.c1 ∧ (tick E s i).1.regs.c2 = s.regs.c2 ∧
      (tick E s i).1.regs.c3 = s.regs.c3 ∧ (tick E s i).1.regs.c4 = s.regs.c4 ∧
      (tick E s i).1.regs.resultsVersion = s.regs.resultsVersion := by
    intro s i hnc
    rw [tick_nocommit E s i hnc]
    dsimp only
    rw [midState_regs]
    have hfl := writeAll_keeps_flags s.regs
      ((afterEdge s i).2 ++ (afterFirstDone s i).2) fun w hw => by
        rcases preCommit_writes s i w hw with h | h <;> simp [h]
    exact ⟨hfl.1, hfl.2.1, hfl.2.2.1, hfl.2.2.2, preCommit_keeps_version s i⟩
  refine ⟨fun s i hmm hp => ?_, keep⟩
  have hnc := edge_no_commit s i hmm hp
  have hk := keep s i hnc
  refine ⟨?_, ?_, ?_, hk⟩
  · intro w hw
    rw [tick_nocommit E s i hnc] at hw
    exact preCommit_writes s i w hw
  · rw [tick_nocommit E s i hnc]
    dsimp only
    rw [afterEdge_trace_edge s i hmm hp]
    rfl
  · rw [tick_nocommit E s i hnc]
    dsimp only
    rw [midState_regs, afterEdge_trace_edge s i hmm hp, List.cons_append,
      List.cons_append, List.nil_append, writeAll_cons, writeAll_cons]
    rw [writeAll_keeps_id _ _ fun w hw => by
      have := afterFirstDone_writes s i w hw
      simp [this]]
    rfl

/-- Witness for C10: a rising edge arriving right after a completed
session leaves the committed flags and version in place. -/
theorem trigger_frame_effect_witness :
    (∀ w ∈ (tick envAllLevel (run envAllLevel initState session1) iTrig).2,
        w.1 = IReg.inspectionId ∨ w.1 = IReg.photoStepDone) ∧
    ((tick envAllLevel (run envAllLevel initState session1) iTrig).2.take 2
        = [(IReg.inspectionId,
             (run envAllLevel initState session1).inspectionId + 1),
           (IReg.photoStepDone, 0)]) ∧
    (tick envAllLevel (run envAllLevel initState session1) iTrig).1.regs.inspectionId
        = (run envAllLevel initState session1).inspectionId + 1 ∧
    (tick envAllLevel (run envAllLevel initState session1) iTrig).1.regs.c1
        = (run envAllLevel initState session1).regs.c1 ∧
    (tick envAllLevel (run envAllLevel initState session1) iTrig).1.regs.c2
        = (run envAllLevel initState session1).regs.c2 ∧
    (tick envAllLevel (run envAllLevel initState session1) iTrig).1.regs.c3
        = (run envAllLevel initState session1).regs.c3 ∧
    (tick envAllLevel (run envAllLevel initState session1) iTrig).1.regs.c4
        = (run envAllLevel initState session1).regs.c4 ∧
    (tick envAllLevel (run envAllLevel initState session1) iTrig).1.regs.resultsVersion
        = (run envAllLevel initState session1).regs.resultsVersion :=
  (trigger_frame_effect envAllLevel).1 (run envAllLevel initState session1)
    iTrig (by decide) (by decide)

/-! ### Lemmas on the candidate scan of the detector -/

theorem scanLines_eq (h : ℕ) (L : List Segment) :
    scanLines h L = (survivors h L).foldl scanUpd scanInit := by
  unfold scanLines survivors
  generalize scanInit = st
  induction L generalizing st with
  | nil => rfl
  | cons s L ih =>
      rw [List.foldl_cons, List.filter_cons]
      by_cases hp : surviveP h s
      · rw [if_pos (decide_eq_true hp), List.foldl_cons,
          show scanLine h st s = scanUpd st s from by unfold scanLine; rw [if_pos hp]]
        exact ih _
      · rw [if_neg (by simpa using hp),
          show scanLine h st s = st from by unfold scanLine; rw [if_neg hp]]
        exact ih _

theorem foldUpd_angles :
    ∀ (ss : List Segment) (st : ScanState),
      (ss.foldl scanUpd st).angles = st.angles ++ ss.map angleDeg := by
  intro ss
  induction ss with
  | nil => intro st; simp
  | cons s ss ih =>
      intro st
      rw [List.foldl_cons, List.map_cons, ih]
      have : (scanUpd st s).angles = st.angles ++ [angleDeg s] := by
        unfold scanUpd; split <;> rfl
      rw [this, List.append_assoc]
      rfl

theorem foldUpd_count :
    ∀ (ss : List Segment) (st : ScanState),
      (ss.foldl scanUpd st).count = st.count + ss.length := by
  intro ss
  induction ss with
  | nil => intro st; rfl
  | cons s ss ih =>
      intro st
      rw [List.foldl_cons, ih]
      have : (scanUpd st s).count = st.count + 1 := by
        unfold scanUpd; split <;> rfl
      rw [this, List.length_cons]
      omega

theorem foldUpd_best :
    ∀ (ss : List Segment) (st : ScanState),
      ((∀ s ∈ ss, segLen s ≤ st.maxLen) ∧ (ss.foldl scanUpd st).best = st.best ∧
        (ss.foldl scanUpd st).maxLen = st.maxLen) ∨
      (∃ b p q, ss = p ++ b :: q ∧ st.maxLen < segLen b ∧
        (∀ t ∈ p, segLen t < segLen b) ∧ (∀ t ∈ q, segLen t ≤ segLen b) ∧
        (ss.foldl scanUpd st).best = some (b, angleDeg b) ∧
        (ss.foldl scanUpd st).maxLen = segLen b) := by
  intro ss
  induction ss with
  | nil => intro st; exact Or.inl ⟨by simp, rfl, rfl⟩
  | cons s ss ih =>
      intro st
      rw [List.foldl_cons]
      by_cases hlt : st.maxLen < segLen s
      · have hupd : scanUpd st s
            = ⟨st.angles ++ [angleDeg s], some (s, angleDeg s), segLen s,
               st.count + 1⟩ := by
          unfold scanUpd; rw [if_pos hlt]
        rcases ih (scanUpd st s) with ⟨hall, hbest, hmax⟩ |
            ⟨b, p, q, heq, hgt, hp, hq, hbest, hmax⟩
        · refine Or.inr ⟨s, [], ss, rfl, hlt, by simp, ?_, ?_, ?_⟩
          · intro t ht
            have h1 := hall t ht
            rw [hupd] at h1
            exact h1
          · rw [hbest, hupd]
          · rw [hmax, hupd]
        · refine Or.inr ⟨b, s :: p, q, by rw [heq, List.cons_append], ?_, ?_,
            hq, hbest, hmax⟩
          · rw [hupd] at hgt
            exact hlt.trans hgt
          · intro t ht
            rcases List.mem_cons.mp ht with rfl | ht
            · rw [hupd] at hgt
              exact hgt
            · exact hp t ht
      · have hupd : scanUpd st s
            = { st with angles := st.angles ++ [angleDeg s],
                        count := st.count + 1 } := by
          unfold scanUpd; rw [if_neg hlt]
        have hle : segLen s ≤ st.maxLen := not_lt.mp hlt
        rcases ih (scanUpd st s) with ⟨hall, hbest, hmax⟩ |
            ⟨b, p, q, heq, hgt, hp, hq, hbest, hmax⟩
        · refine Or.inl ⟨?_, by rw [hbest, hupd], by rw [hmax, hupd]⟩
          intro t ht
          rcases List.mem_cons.mp ht with rfl | ht
          · exact hle
          · have h1 := hall t ht
            rw [hupd] at h1
            exact h1
        · refine Or.inr ⟨b, s :: p, q, by rw [heq, List.cons_append], ?_, ?_,
            hq, hbest, hmax⟩
          · rw [hupd] at hgt
            exact hgt
          · intro t ht
            rcases List.mem_cons.mp ht with rfl | ht
            · refine hle.trans_lt ?_
              rw [hupd] at hgt
              exact hgt
            · exact hp t ht

theorem surviveP_len_pos {h : ℕ} {s : Segment} (hs : surviveP h s) :
    0 < segLen s := by
  rcases hs with ⟨_, hdx, _⟩
  unfold segLen
  rw [Real.sqrt_pos]
  have hx : ((s.x2 - s.x1 : ℤ) : ℝ) ≠ 0 := Int.cast_ne_zero.mpr hdx
  have h1 : 0 < ((s.x2 - s.x1 : ℤ) : ℝ) ^ 2 := pow_two_pos_of_ne_zero hx
  nlinarith [sq_nonneg ((s.y2 - s.y1 : ℤ) : ℝ)]

theorem detect_empty (cid h : ℕ) (tol : ℝ) (L : List Segment)
    (hL : survivors h L = []) :
    detectFromLines cid h tol L
      = ⟨cid, true, 0, false, false⟩ := by
  simp only [detectFromLines]
  by_cases h0 : L = []
  · rw [if_pos h0]
  · rw [if_neg h0, scanLines_eq, hL]
    rfl

theorem detect_spec (cid h : ℕ) (tol : ℝ) (L : List Segment)
    (hs : survivors h L ≠ []) :
    ∃ b p q, survivors h L = p ++ b :: q ∧
      (∀ t ∈ p, segLen t < segLen b) ∧ (∀ t ∈ q, segLen t ≤ segLen b) ∧
      detectFromLines cid h tol L
        = { id := cid,
            is_level := if decide (1 < (survivors h L).length ∧
                  5 < npStd ((survivors h L).map angleDeg)) = true then false
                else decide (|angleDeg b| < tol),
            angle := angleDeg b, has_top_line := true,
            is_curved := decide (1 < (survivors h L).length ∧
                5 < npStd ((survivors h L).map angleDeg)) } := by
  rcases foldUpd_best (survivors h L) scanInit with ⟨hall, _, _⟩ |
      ⟨b, p, q, heq, _, hp, hq, hbest, _⟩
  · exfalso
    rcases List.exists_mem_of_ne_nil _ hs with ⟨t, ht⟩
    have h1 := hall t ht
    have h2 : 0 < segLen t := by
      have ht2 := ht
      unfold survivors at ht2
      exact surviveP_len_pos (of_decide_eq_true (List.mem_filter.mp ht2).2)
    have h3 : scanInit.maxLen = 0 := rfl
    rw [h3] at h1
    linarith
  · refine ⟨b, p, q, heq, hp, hq, ?_⟩
    have hnil : L ≠ [] := by
      intro h0
      exact hs (by rw [h0]; rfl)
    have hcount : (scanLines h L).count = (survivors h L).length := by
      rw [scanLines_eq, foldUpd_count]
      simp [scanInit]
    have hangles : (scanLines h L).angles = (survivors h L).map angleDeg := by
      rw [scanLines_eq, foldUpd_angles]
      rfl
    have hb : (scanLines h L).best = some (b, angleDeg b) := by
      rw [scanLines_eq]
      exact hbest
    simp only [detectFromLines]
    rw [if_neg hnil, hb, hcount, hangles]

/-! ### Numeric bounds used by the concrete detector scenarios -/

theorem sqrt_three_lt_two : Real.sqrt 3 < 2 := by
  have h := Real.sqrt_lt_sqrt (by norm_num : (0:ℝ) ≤ 3) (by norm_num : (3:ℝ) < 4)
  rwa [show (4:ℝ) = 2 ^ 2 by norm_num,
    Real.sqrt_sq (by norm_num : (0:ℝ) ≤ 2)] at h

theorem sqrt_three_gt : (1.7 : ℝ) < Real.sqrt 3 := by
  have h := Real.sqrt_lt_sqrt (by norm_num : (0:ℝ) ≤ 1.7 ^ 2)
    (by norm_num : (1.7:ℝ) ^ 2 < 3)
  rwa [Real.sqrt_sq (by norm_num : (0:ℝ) ≤ 1.7)] at h

theorem arctan_half_lt_pi_div_six : Real.arctan (1 / 2) < Real.pi / 6 := by
  have hpi := Real.pi_pos
  have h1 : (1:ℝ) / 2 < 1 / Real.sqrt 3 := by
    rw [div_lt_div_iff (by norm_num) (Real.sqrt_pos.mpr (by norm_num))]
    simpa using sqrt_three_lt_two
  have h2 : Real.arctan (1 / Real.sqrt 3) = Real.pi / 6 := by
    rw [← Real.tan_pi_div_six,
      Real.arctan_tan (by linarith) (by linarith)]
  calc Real.arctan (1 / 2) < Real.arctan (1 / Real.sqrt 3) :=
        Real.arctan_strictMono h1
    _ = Real.pi / 6 := h2

theorem tan_pi_div_eighteen_lt_half : Real.tan (Real.pi / 18) < 1 / 2 := by
  have hpi := Real.pi_pos
  have hlt : Real.pi < 3.15 := Real.pi_lt_d2
  have hs : Real.sin (Real.pi / 18) < Real.pi / 18 := Real.sin_lt (by linarith)
  have hc : Real.cos (Real.pi / 6) ≤ Real.cos (Real.pi / 18) :=
    Real.cos_le_cos_of_nonneg_of_le_pi (by linarith) (by linarith) (by linarith)
  rw [Real.cos_pi_div_six] at hc
  have hcpos : 0 < Real.cos (Real.pi / 18) :=
    Real.cos_pos_of_mem_Ioo (Set.mem_Ioo.mpr ⟨by linarith, by linarith⟩)
  rw [Real.tan_eq_sin_div_cos, div_lt_iff hcpos]
  have hsq := sqrt_three_gt
  linarith

theorem pi_div_eighteen_lt_arctan_half : Real.pi / 18 < Real.arctan (1 / 2) := by
  have hpi := Real.pi_pos
  have h2 : Real.arctan (Real.tan (Real.pi / 18)) = Real.pi / 18 :=
    Real.arctan_tan (by linarith) (by linarith)
  calc Real.pi / 18 = Real.arctan (Real.tan (Real.pi / 18)) := h2.symm
    _ < Real.arctan (1 / 2) := Real.arctan_strictMono tan_pi_div_eighteen_lt_half

theorem arctan_half_pos : 0 < Real.arctan (1 / 2) := by
  have h := Real.arctan_strictMono (show (0:ℝ) < 1 / 2 by norm_num)
  rwa [Real.arctan_zero] at h

/-! ### Angles and lengths of the concrete segments -/

theorem angleDeg_segH : angleDeg segH = 0 := by
  have hx : ((segH.x2 - segH.x1 : ℤ) : ℝ) = 10 := by norm_num [segH]
  have hy : ((segH.y2 - segH.y1 : ℤ) : ℝ) = 0 := by norm_num [segH]
  unfold angleDeg arctan2
  rw [hx, hy, if_pos (by norm_num : (0:ℝ) < 10)]
  norm_num [Real.arctan_zero]

theorem angleDeg_segS : angleDeg segS = Real.arctan (1 / 2) * 180 / Real.pi := by
  have hx : ((segS.x2 - segS.x1 : ℤ) : ℝ) = 2 := by norm_num [segS]
  have hy : ((segS.y2 - segS.y1 : ℤ) : ℝ) = 1 := by norm_num [segS]
  unfold angleDeg arctan2
  rw [hx, hy, if_pos (by norm_num : (0:ℝ) < 2)]

theorem angleDeg_segS_pos : 0 < angleDeg segS := by
  rw [angleDeg_segS]
  exact div_pos (mul_pos arctan_half_pos (by norm_num)) Real.pi_pos

theorem angleDeg_segS_lt30 : angleDeg segS < 30 := by
  rw [angleDeg_segS]
  have hpi := Real.pi_pos
  rw [div_lt_iff hpi]
  have h := arctan_half_lt_pi_div_six
  linarith

theorem angleDeg_segS_gt10 : 10 < angleDeg segS := by
  rw [angleDeg_segS]
  have hpi := Real.pi_pos
  rw [lt_div_iff hpi]
  have h := pi_div_eighteen_lt_arctan_half
  linarith

theorem surviveP_segS : surviveP 10 segS := by
  refine ⟨by norm_num [posOK, segS], by norm_num [segS], ?_⟩
  rw [abs_of_pos angleDeg_segS_pos]
  exact le_of_lt angleDeg_segS_lt30

theorem surviveP_segH : surviveP 10 segH := by
  refine ⟨by norm_num [posOK, segH], by norm_num [segH], ?_⟩
  rw [angleDeg_segH]
  norm_num

theorem survivors_ex : survivors 10 exLines = [segS, segH] := by
  unfold survivors exLines
  rw [List.filter_cons, if_pos (decide_eq_true surviveP_segS),
    List.filter_cons, if_pos (decide_eq_true surviveP_segH), List.filter_nil]

theorem survivors_exH : survivors 10 [segH] = [segH] := by
  unfold survivors
  rw [List.filter_cons, if_pos (decide_eq_true surviveP_segH), List.filter_nil]

theorem segLen_segS_lt : segLen segS < segLen segH := by
  unfold segLen
  have h1 : ((segS.x2 - segS.x1 : ℤ) : ℝ) ^ 2 + ((segS.y2 - segS.y1 : ℤ) : ℝ) ^ 2
      = 5 := by norm_num [segS]
  have h2 : ((segH.x2 - segH.x1 : ℤ) : ℝ) ^ 2 + ((segH.y2 - segH.y1 : ℤ) : ℝ) ^ 2
      = 100 := by norm_num [segH]
  rw [h1, h2]
  exact Real.sqrt_lt_sqrt (by norm_num) (by norm_num)

theorem npStd_pair (a : ℝ) (ha : 0 ≤ a) : npStd [a, 0] = a / 2 := by
  have hm : npMean [a, 0] = a / 2 := by
    unfold npMean
    norm_num
  unfold npStd
  rw [hm]
  have h1 : (([a, 0] : List ℝ).map fun x => (x - a / 2) ^ 2).sum
      = (a - a / 2) ^ 2 + ((0 - a / 2) ^ 2 + 0) := rfl
  rw [h1]
  have h2 : ((a - a / 2) ^ 2 + ((0 - a / 2) ^ 2 + 0)) / (([a, 0] : List ℝ).length)
      = (a / 2) ^ 2 := by
    norm_num
    ring
  rw [h2, Real.sqrt_sq (by linarith)]

theorem scan_ex : scanLines 10 exLines
    = ⟨[angleDeg segS, angleDeg segH], some (segH, angleDeg segH),
       segLen segH, 2⟩ := by
  unfold scanLines exLines
  rw [List.foldl_cons, List.foldl_cons, List.foldl_nil]
  rw [show scanLine 10 scanInit segS = scanUpd scanInit segS from by
    unfold scanLine; rw [if_pos surviveP_segS]]
  rw [show scanUpd scanInit segS
      = ⟨[angleDeg segS], some (segS, angleDeg segS), segLen segS, 1⟩ from by
    unfold scanUpd
    rw [if_pos (show scanInit.maxLen < segLen segS from
      surviveP_len_pos surviveP_segS)]
    rfl]
  rw [show scanLine 10 ⟨[angleDeg segS], some (segS, angleDeg segS), segLen segS, 1⟩
        segH
      = scanUpd ⟨[angleDeg segS], some (segS, angleDeg segS), segLen segS, 1⟩ segH
      from by unfold scanLine; rw [if_pos surviveP_segH]]
  unfold scanUpd
  rw [if_pos (show (⟨[angleDeg segS], some (segS, angleDeg segS), segLen segS, 1⟩ :
      ScanState).maxLen < segLen segH from segLen_segS_lt)]
  rfl

theorem detect_exLines :
    detect_canister_level exExtract 1 20 10 (5 / 2)
      = ⟨1, false, angleDeg segH, true, true⟩ := by
  have hb : (scanLines 10 exLines).best = some (segH, angleDeg segH) := by
    rw [scan_ex]
  have hcnt : (scanLines 10 exLines).count = 2 := by
    rw [scan_ex]
  have hang : (scanLines 10 exLines).angles = [angleDeg segS, angleDeg segH] := by
    rw [scan_ex]
  have hstd : 5 < npStd [angleDeg segS, angleDeg segH] := by
    rw [angleDeg_segH, npStd_pair _ (le_of_lt angleDeg_segS_pos)]
    linarith [angleDeg_segS_gt10]
  show detectFromLines 1 10 (5 / 2) exLines = _
  simp only [detectFromLines]
  rw [if_neg (by simp [exLines] : ¬exLines = []), hb, hcnt, hang]
  rw [decide_eq_true (show (1:ℕ) < 2 ∧ 5 < npStd [angleDeg segS, angleDeg segH]
    from ⟨by norm_num, hstd⟩)]
  rfl

/-! ### The detector claims -/

/-- C6.  When at least two candidates survive the filter and the standard
deviation of their angles exceeds 5 degrees, the detector reports
is_curved and forces is_level to false regardless of the best segment's
own angle; with fewer than two survivors the override never fires. -/
theorem curvature_override (extract : ℤ → ℤ → List Segment) (cid w h : ℕ)
    (tol : ℝ) :
    (2 ≤ (survivors h (extract (hough_threshold w h) (min_line_length w h))).length →
      5 < npStd ((survivors h
          (extract (hough_threshold w h) (min_line_length w h))).map angleDeg) →
      (detect_canister_level extract cid w h tol).is_curved = true ∧
        (detect_canister_level extract cid w h tol).is_level = false) ∧
    ((survivors h (extract (hough_threshold w h) (min_line_length w h))).length < 2 →
      (detect_canister_level extract cid w h tol).is_curved = false) := by
  constructor
  · intro hlen hstd
    have hs : survivors h (extract (hough_threshold w h) (min_line_length w h))
        ≠ [] := by
      intro h0
      rw [h0] at hlen
      simp at hlen
    obtain ⟨b, p, q, heq, hp, hq, hdet⟩ := detect_spec cid h tol _ hs
    unfold detect_canister_level
    rw [hdet]
    rw [decide_eq_true (show
        1 < (survivors h (extract (hough_threshold w h) (min_line_length w h))).length ∧
        5 < npStd ((survivors h
          (extract (hough_threshold w h) (min_line_length w h))).map angleDeg)
      from ⟨by omega, hstd⟩)]
    constructor
    · rfl
    · show (if (true = true) then false else decide (|angleDeg b| < tol)) = false
      rw [if_pos rfl]
  · intro hlen
    by_cases hs : survivors h (extract (hough_threshold w h) (min_line_length w h))
        = []
    · unfold detect_canister_level
      rw [detect_empty cid h tol _ hs]
    · obtain ⟨b, p, q, heq, hp, hq, hdet⟩ := detect_spec cid h tol _ hs
      unfold detect_canister_level
      rw [hdet]
      show decide _ = false
      refine decide_eq_false ?_
      intro hC
      omega

/-- Witness for C6: a crop (height 10) whose extractor yields the sloped
and the horizontal segment; both survive, their angle standard deviation
is above 5, and the detector reports curved and not level. -/
theorem curvature_override_witness :
    2 ≤ (survivors 10
        (exExtract (hough_threshold 20 10) (min_line_length 20 10))).length ∧
    5 < npStd ((survivors 10
        (exExtract (hough_threshold 20 10) (min_line_length 20 10))).map angleDeg) ∧
    ((detect_canister_level exExtract 1 20 10 (5 / 2)).is_curved = true ∧
      (detect_canister_level exExtract 1 20 10 (5 / 2)).is_level = false) := by
  have h1 : survivors 10 (exExtract (hough_threshold 20 10) (min_line_length 20 10))
      = [segS, segH] := survivors_ex
  have hlen : 2 ≤ (survivors 10
      (exExtract (hough_threshold 20 10) (min_line_length 20 10))).length := by
    rw [h1]
    simp
  have hstd : 5 < npStd ((survivors 10
      (exExtract (hough_threshold 20 10) (min_line_length 20 10))).map angleDeg) := by
    rw [h1]
    show 5 < npStd [angleDeg segS, angleDeg segH]
    rw [angleDeg_segH, npStd_pair _ (le_of_lt angleDeg_segS_pos)]
    linarith [angleDeg_segS_gt10]
  exact ⟨hlen, hstd, (curvature_override exExtract 1 20 10 (5 / 2)).1 hlen hstd⟩

/-- Counterexample to C7 as stated: a crop with surviving candidates on
which the detector's reported angle (the longest segment's, 0) is within
the tolerance 2.5, yet is_level is false (the curvature override fired),
refuting "is_level = true iff |angle| < tolerance". -/
theorem level_not_iff_tolerance :
    survivors 10 (exExtract (hough_threshold 20 10) (min_line_length 20 10)) ≠ [] ∧
    |(detect_canister_level exExtract 1 20 10 (5 / 2)).angle| < 5 / 2 ∧
    (detect_canister_level exExtract 1 20 10 (5 / 2)).is_level = false := by
  refine ⟨?_, ?_, ?_⟩
  · rw [show survivors 10 (exExtract (hough_threshold 20 10) (min_line_length 20 10))
        = [segS, segH] from survivors_ex]
    simp
  · rw [detect_exLines]
    show |angleDeg segH| < 5 / 2
    rw [angleDeg_segH]
    norm_num
  · rw [detect_exLines]

/-- C7 amended.  With at least one surviving candidate, the detector
selects the single longest survivor (first-encountered on ties: every
earlier survivor is strictly shorter, every later one no longer),
reports that segment's signed angle, and — unless the curvature override
(at least two survivors with angle standard deviation above 5) fires —
sets is_level to true iff the absolute value of that angle is strictly
below the tolerance. -/
theorem longest_survivor_selected (extract : ℤ → ℤ → List Segment)
    (cid w h : ℕ) (tol : ℝ)
    (hs : survivors h (extract (hough_threshold w h) (min_line_length w h)) ≠ []) :
    ∃ b p q,
      survivors h (extract (hough_threshold w h) (min_line_length w h))
        = p ++ b :: q ∧
      (∀ t ∈ p, segLen t < segLen b) ∧ (∀ t ∈ q, segLen t ≤ segLen b) ∧
      (detect_canister_level extract cid w h tol).has_top_line = true ∧
      (detect_canister_level extract cid w h tol).angle = angleDeg b ∧
      (¬(2 ≤ (survivors h
            (extract (hough_threshold w h) (min_line_length w h))).length ∧
          5 < npStd ((survivors h
            (extract (hough_threshold w h) (min_line_length w h))).map angleDeg)) →
        ((detect_canister_level extract cid w h tol).is_level = true ↔
          |angleDeg b| < tol)) := by
  obtain ⟨b, p, q, heq, hp, hq, hdet⟩ := detect_spec cid h tol _ hs
  refine ⟨b, p, q, heq, hp, hq, ?_, ?_, ?_⟩
  · unfold detect_canister_level
    rw [hdet]
  · unfold detect_canister_level
    rw [hdet]
  · intro hno
    unfold detect_canister_level
    rw [hdet]
    rw [decide_eq_false (show ¬(1 < (survivors h
        (extract (hough_threshold w h) (min_line_length w h))).length ∧
        5 < npStd ((survivors h
          (extract (hough_threshold w h) (min_line_length w h))).map angleDeg))
      from fun hC => hno ⟨by omega, hC.2⟩)]
    show (if (false = true) then false else decide (|angleDeg b| < tol)) = true ↔ _
    rw [if_neg (by simp)]
    simp [decide_eq_true_eq]

/-- Witness for C7's amended theorem: a crop whose only extracted segment
is the horizontal one. -/
theorem longest_survivor_selected_witness :
    ∃ b p q,
      survivors 10 (exExtractH (hough_threshold 20 10) (min_line_length 20 10))
        = p ++ b :: q ∧
      (∀ t ∈ p, segLen t < segLen b) ∧ (∀ t ∈ q, segLen t ≤ segLen b) ∧
      (detect_canister_level exExtractH 1 20 10 (5 / 2)).has_top_line = true ∧
      (detect_canister_level exExtractH 1 20 10 (5 / 2)).angle = angleDeg b ∧
      (¬(2 ≤ (survivors 10
            (exExtractH (hough_threshold 20 10) (min_line_length 20 10))).length ∧
          5 < npStd ((survivors 10
            (exExtractH (hough_threshold 20 10) (min_line_length 20 10))).map
              angleDeg)) →
        ((detect_canister_level exExtractH 1 20 10 (5 / 2)).is_level = true ↔
          |angleDeg b| < 5 / 2)) :=
  longest_survivor_selected exExtractH 1 20 10 (5 / 2)
    (by rw [show survivors 10
        (exExtractH (hough_threshold 20 10) (min_line_length 20 10))
        = [segH] from survivors_exH]; simp)

/-- C8.  When the extractor yields no segments, or none survives the
filter, the detector returns (rather than raising) the defaults:
has_top_line false, is_level true, is_curved false, angle 0. -/
theorem blank_crop_default (extract : ℤ → ℤ → List Segment) (cid w h : ℕ)
    (tol : ℝ)
    (hs : extract (hough_threshold w h) (min_line_length w h) = [] ∨
      survivors h (extract (hough_threshold w h) (min_line_length w h)) = []) :
    detect_canister_level extract cid w h tol
      = ⟨cid, true, 0, false, false⟩ := by
  unfold detect_canister_level
  rcases hs with hs | hs
  · exact detect_empty cid h tol _ (by rw [hs]; rfl)
  · exact detect_empty cid h tol _ hs

/-- Witness for C8: the empty extraction. -/
theorem blank_crop_default_witness :
    (exExtractNil (hough_threshold 20 10) (min_line_length 20 10) = [] ∨
      survivors 10 (exExtractNil (hough_threshold 20 10)
        (min_line_length 20 10)) = []) ∧
    detect_canister_level exExtractNil 1 20 10 (5 / 2)
      = ⟨1, true, 0, false, false⟩ :=
  ⟨Or.inl rfl, blank_crop_default exExtractNil 1 20 10 (5 / 2) (Or.inl rfl)⟩

/-- C9.  The detector computes the scale factor as
min(w / 700, h / 300) and passes the line extractor a minimum segment
length of max(10, floor(25 * scale)) and a vote threshold of
max(10, floor(20 * scale)); Python's truncating `int()` agrees with
floor here because the scale is non-negative. -/
theorem scaled_extractor_params (w h : ℕ) :
    scale_factor w h = min ((w : ℚ) / 700) ((h : ℚ) / 300) ∧
    min_line_length w h = max 10 ⌊(25 : ℚ) * min ((w : ℚ) / 700) ((h : ℚ) / 300)⌋ ∧
    hough_threshold w h = max 10 ⌊(20 : ℚ) * min ((w : ℚ) / 700) ((h : ℚ) / 300)⌋ ∧
    ∀ (extract : ℤ → ℤ → List Segment) (cid : ℕ) (tol : ℝ),
      detect_canister_level extract cid w h tol
        = detectFromLines cid h tol
            (extract (hough_threshold w h) (min_line_length w h)) := by
  have h0 : 0 ≤ scale_factor w h := by
    unfold scale_factor
    exact le_min (by positivity) (by positivity)
  refine ⟨rfl, ?_, ?_, fun _ _ _ => rfl⟩
  · unfold min_line_length pyInt
    rw [if_pos (mul_nonneg (by norm_num) h0)]
    rfl
  · unfold hough_threshold pyInt
    rw [if_pos (mul_nonneg (by norm_num) h0)]
    rfl

end CameraInspection
